import Mathlib

/-!
Verification of the `sd` systemd-journal library (Go) against its
natural-language specification.

The development shallowly embeds the two core subsystems:

* the ANSI style compiler (`ansi` package: `colorCode`, `ColorCode`,
  `Color`, `ColorFunc`), modelled over `List Char` so that the string
  splitting the Go code performs with `strings.Split` is an ordinary
  recursive function on character lists;
* the field merging / validation / record encoding path of the `sd`
  package (`copy`, `Set_default_fields`, `load_defaults`, `Send`, `Info`),
  modelled with explicit state passing.  Go maps are modelled as
  association lists with unique keys whose iteration order is the list
  order; `[]byte` values are modelled as references into an explicit
  store so that the aliasing behaviour of slice assignment is visible.
-/

set_option maxHeartbeats 1000000

namespace Ansi

/-- Embeds Go `strings.Split(s, sep)` for a one-character separator, the
only form the `ansi` package uses (separators ":" and "+"). -/
def splitOnChar (c : Char) : List Char → List (List Char)
  | [] => [[]]
  | x :: xs =>
    if x = c then [] :: splitOnChar c xs
    else
      match splitOnChar c xs with
      | [] => [[x]]
      | y :: ys => (x :: y) :: ys

/-- All-decimal-digit parse; `none` on the empty list or a non-digit. -/
def digitsToNat (l : List Char) : Option Nat :=
  if l ≠ [] ∧ l.all Char.isDigit then
    some (l.foldl (fun a c => a * 10 + (c.toNat - 48)) 0)
  else none

/-- Embeds Go `strconv.Atoi`: optional sign followed by decimal digits
(overflow is not modelled; the inputs in play are short). -/
def goAtoi (l : List Char) : Option Int :=
  match l with
  | '+' :: rest => (digitsToNat rest).map Int.ofNat
  | '-' :: rest => (digitsToNat rest).map (fun n => -(n : Int))
  | _ => (digitsToNat l).map Int.ofNat

/-- Embeds the `Colors` map of the `ansi` package: the eight named
colors, "default", and the decimal strings "0".."255" mapping to their
values.  A missing key yields Go's zero value 0. -/
def colorsLookup (k : List Char) : Nat :=
  if k = "black".data then 0
  else if k = "red".data then 1
  else if k = "green".data then 2
  else if k = "yellow".data then 3
  else if k = "blue".data then 4
  else if k = "magenta".data then 5
  else if k = "cyan".data then 6
  else if k = "white".data then 7
  else if k = "default".data then 9
  else
    match goAtoi k with
    | some n => if 0 ≤ n ∧ n ≤ 255 ∧ k = (toString n).data then n.toNat else 0
    | none => 0

/-- The ANSI reset escape sequence (`Reset` constant of the source). -/
def Reset : List Char := "\x1b[0m".data

/-- The escape prefix (`start` constant of the source). -/
def start : List Char := "\x1b[".data

/-- The attribute modifier codes emitted for the foreground segment, in
the fixed order of the source's `strings.Contains` chain: bold, blink,
underline, inverse, strikethrough. -/
def fgMods (fgStyle : List Char) : List Char :=
  (if 'b' ∈ fgStyle then "1;".data else [])
    ++ (if 'B' ∈ fgStyle then "5;".data else [])
    ++ (if 'u' ∈ fgStyle then "4;".data else [])
    ++ (if 'i' ∈ fgStyle then "7;".data else [])
    ++ (if 's' ∈ fgStyle then "9;".data else [])

/-- Foreground intensity base: 90 when the `h` flag is present, else 30
(`normalIntensityFG` / `highIntensityFG`). -/
def fgBase (fgStyle : List Char) : Nat := if 'h' ∈ fgStyle then 90 else 30

/-- Background intensity base: 100 when the `h` flag is present, else 40
(`normalIntensityBG` / `highIntensityBG`). -/
def bgBase (bgStyle : List Char) : Nat := if 'h' ∈ bgStyle then 100 else 40

/-- Foreground color code: `38;5;n;` when the key parses as an integer
(256-color), else `base+Colors[key];`. -/
def fgColor (fgKey : List Char) (base : Nat) : List Char :=
  match goAtoi fgKey with
  | some n => "38;5;".data ++ (toString n).data ++ [';']
  | none => (Nat.repr (base + colorsLookup fgKey)).data ++ [';']

/-- Background color code: `48;5;n;` when the key parses as an integer,
else `base+Colors[key];`. -/
def bgColor (bg : List Char) (base : Nat) : List Char :=
  match goAtoi bg with
  | some n => "48;5;".data ++ (toString n).data ++ [';']
  | none => (Nat.repr (base + colorsLookup bg)).data ++ [';']

/-- Embeds `colorCode` of the `ansi` package.  The global mutable flag
`plain` is passed explicitly.  The source's redundant
`len(fgStyle) > 0` guard is dropped: `strings.Contains` of an empty
string is false for each flag, so the guarded block is the identity on
an empty attribute string. -/
def colorCode (plain : Bool) (style : List Char) : List Char :=
  if plain ∨ style = [] then []
  else if style = "reset".data then Reset
  else if style = "off".data then []
  else
    let fb := splitOnChar ':' style
    let foreground := splitOnChar '+' (fb.headD [])
    let fgKey := foreground.headD []
    let fgStyle := if 1 < foreground.length then foreground.getD 1 [] else []
    let bgParts := if 1 < fb.length then splitOnChar '+' (fb.getD 1 []) else [[]]
    let bg := bgParts.headD []
    let bgStyle := if 1 < bgParts.length then bgParts.getD 1 [] else []
    (start ++ fgMods fgStyle ++ fgColor fgKey (fgBase fgStyle)
      ++ (if bg ≠ [] then bgColor bg (bgBase bgStyle) else [])).dropLast ++ ['m']

/-- Embeds `ColorCode` (the public wrapper returning `buf.String()`). -/
def ColorCode (plain : Bool) (style : List Char) : List Char :=
  colorCode plain style

/-- Embeds `Color`: wrap `s` with the compiled code and `Reset`, or
return `s` unchanged when plain mode is on or the style is empty. -/
def Color (plain : Bool) (s style : List Char) : List Char :=
  if plain ∨ style.length < 1 then s
  else colorCode plain style ++ s ++ Reset

/-- Embeds `ColorFunc`.  The closure compiles the style once, at
creation time (`plainCreate` is the value of the global `plain` flag at
that moment), and re-reads the flag on every call (`plainCall`). -/
def ColorFunc (plainCreate : Bool) (style : List Char) :
    Bool → List Char → List Char :=
  if style = [] then fun _ s => s
  else
    let color := ColorCode plainCreate style
    fun plainCall s =>
      if plainCall ∨ s = [] then s
      else color ++ s ++ Reset

end Ansi

namespace Sd

/-- The values a field map may hold.  Go declares the maps as
`map[string]interface{}`; the `Send` type switch distinguishes `string`,
`Priority` (a string-typed severity token) and `[]byte`; every other
dynamic kind falls into the `default` branch.  A `[]byte` value is a
slice header, modelled as a reference (`ref`) into an explicit store of
byte buffers so that aliasing is observable. -/
inductive Value where
  | str (s : String)
  | pr (p : String)
  | bytes (ref : Nat)
  | other
  deriving DecidableEq, Repr

/-- A Go `map[string]interface{}`, modelled as an association list with
unique keys; map iteration order is modelled as list order. -/
abbrev FieldMap := List (String × Value)

instance {ε α : Type} [DecidableEq ε] [DecidableEq α] : DecidableEq (Except ε α) := fun a b =>
  match a, b with
  | Except.ok x, Except.ok y =>
    if h : x = y then isTrue (by rw [h])
    else isFalse (by intro he; cases he; exact h rfl)
  | Except.error x, Except.error y =>
    if h : x = y then isTrue (by rw [h])
    else isFalse (by intro he; cases he; exact h rfl)
  | Except.ok _, Except.error _ => isFalse (fun he => Except.noConfusion he)
  | Except.error _, Except.ok _ => isFalse (fun he => Except.noConfusion he)

/-- The heap of `[]byte` buffers; `Value.bytes r` denotes `store[r]`. -/
abbrev Store := List (List Nat)

/-- Reads the buffer a byte-sequence reference denotes. -/
def deref (st : Store) (r : Nat) : List Nat :=
  List.getD st r []

/-- Go map assignment `m[k] = v`: replace the binding if the key is
present, otherwise add it. -/
def mapInsert : FieldMap → String → Value → FieldMap
  | [], k, v => [(k, v)]
  | (k', v') :: rest, k, v =>
    if k' = k then (k, v) :: rest else (k', v') :: mapInsert rest k v

/-- Go `delete(m, k)`. -/
def mapDelete : FieldMap → String → FieldMap
  | [], _ => []
  | (k', v') :: rest, k =>
    if k' = k then rest else (k', v') :: mapDelete rest k

/-- Go map read `m[k]`. -/
def mapLookup (k : String) : FieldMap → Option Value
  | [] => none
  | (k', v) :: rest => if k' = k then some v else mapLookup k rest

/-- The source regexp `Sd_valid_field_regexp`, kept as the string the
validation error interpolates. -/
def Sd_valid_field_regexp : String := "^[^_]{1}[\\p{Lu}0-9_]*$"

/-- The Unicode uppercase-letter category Lu that the source regexp's
`\p{Lu}` class denotes, modelled exactly on the ASCII (`A`-`Z`),
Latin-1-supplement (`À`-`Ö`, `Ø`-`Þ`), Greek and Cyrillic capital
ranges; Lu characters outside these blocks are under-approximated as
not matching.  The class is a strict superset of the ASCII `A`-`Z`:
e.g. `É` (U+00C9) and `Δ` (U+0394) are in Lu. -/
def isLu (c : Char) : Bool :=
  c.isUpper
    || (0xC0 ≤ c.toNat && c.toNat ≤ 0xD6)
    || (0xD8 ≤ c.toNat && c.toNat ≤ 0xDE)
    || c.toNat = 0x386
    || (0x388 ≤ c.toNat && c.toNat ≤ 0x38A)
    || c.toNat = 0x38C
    || (0x38E ≤ c.toNat && c.toNat ≤ 0x38F)
    || (0x391 ≤ c.toNat && c.toNat ≤ 0x3A1)
    || (0x3A3 ≤ c.toNat && c.toNat ≤ 0x3AB)
    || (0x400 ≤ c.toNat && c.toNat ≤ 0x42F)

/-- Whether a field name matches the source regexp
`^[^_]{1}[\p{Lu}0-9_]*$`: nonempty, first character not an underscore,
remaining characters Unicode uppercase letters (`isLu`), digits or
underscore. -/
def valid_field_match (k : String) : Bool :=
  match k.data with
  | [] => false
  | c :: rest => c ≠ '_' && rest.all (fun x => isLu x || x.isDigit || x = '_')

/-- The specification's and claim's ASCII naming grammar
`^[^_][A-Z0-9_]*$`, stated from the spec's words (`Char.isUpper` is
exactly the ASCII range `A`-`Z`), for comparison with the code's
regexp `valid_field_match`, whose letter class `\p{Lu}` is a strict
superset of `[A-Z]`. -/
def spec_ascii_field_grammar (k : String) : Bool :=
  match k.data with
  | [] => false
  | c :: rest => c ≠ '_' && rest.all (fun x => x.isUpper || x.isDigit || x = '_')

/-- The error `Send` returns for a name rejected by the regexp
(`fmt.Errorf("field violates regexp %v : %v", valid_field, k)`). -/
def invalid_field_error (k : String) : String :=
  "field violates regexp " ++ Sd_valid_field_regexp ++ " : " ++ k

/-- The error `Send` returns for an unsupported value kind. -/
def unsupported_error (k : String) : String :=
  "Error: Unsupported field value: key = " ++ k

/-- The error `Send` returns when the field count exceeds `max_fields`
(`_SC_IOV_MAX`). -/
def capacity_error (mx n : Nat) : String :=
  "Field count cannot exceed " ++ Nat.repr mx ++ ": " ++ Nat.repr n ++ " given"

/-- The bytes of a string, at codepoint granularity; on the ASCII field
names and values in play this coincides with Go's `[]byte(s)` (UTF-8). -/
def strBytes (s : String) : List Nat :=
  s.data.map Char.toNat

/-- One wire record handed to `sd_journal_sendv`.  String-valued fields
become a C string `k=value` whose declared `iov_len` is its length;
byte-sequence fields become the raw buffer `bytes(k) ++ 0x3D ++ value`,
again with `iov_len` the full length (the model keeps the whole list, so
the declared length is implicitly `.length`). -/
inductive Record where
  | strRec (s : String)
  | byteRec (b : List Nat)
  deriving DecidableEq, Repr

/-- The record-building loop of `Send`: validate each name against the
regexp, then encode by value kind; the first failure aborts the whole
encode and nothing is handed to the transport. -/
def encode_fields (st : Store) : FieldMap → Except String (List Record)
  | [] => Except.ok []
  | (k, v) :: rest =>
    if valid_field_match k = true then
      match v with
      | Value.str s =>
        Except.map (fun recs => Record.strRec (k ++ "=" ++ s) :: recs)
          (encode_fields st rest)
      | Value.pr p =>
        Except.map (fun recs => Record.strRec (k ++ "=" ++ p) :: recs)
          (encode_fields st rest)
      | Value.bytes r =>
        Except.map (fun recs => Record.byteRec (strBytes k ++ 61 :: deref st r) :: recs)
          (encode_fields st rest)
      | Value.other => Except.error (unsupported_error k)
    else Except.error (invalid_field_error k)

/-- The caller location `gstack.New_index(4)` resolves; external
collaborator, passed in as data. -/
structure GoFields where
  func : String
  file : String
  line : String
  deriving DecidableEq, Repr

/-- The per-instance state of a `Journal`.  The fields not involved in
any claim (`send_stderr`, `writer_priority`, the compiled regexps and
the mutex) are omitted; the mutex only serializes the operations that
are modelled here as atomic functions. -/
structure Journal where
  default_fields : FieldMap
  add_go_code_fields : Bool
  remove_ansi_escape : Bool
  deriving DecidableEq, Repr

/-- syslog severity tokens (`Priority` values of the source). -/
def Log_emerg : String := "0"
def Log_alert : String := "1"
def Log_crit : String := "2"
def Log_err : String := "3"
def Log_warning : String := "4"
def Log_notice : String := "5"
def Log_info : String := "6"
def Log_debug : String := "7"

/-- `fmt.Sprintln` applied to a single string operand: the operand
followed by a newline. -/
def sprintln (s : String) : String := s ++ "\n"

/-- Drops characters up to and including the first `m`; `none` when no
`m` occurs (the regexp then has no match starting at this escape). -/
def drop_to_m : List Char → Option (List Char)
  | [] => none
  | c :: rest => if c = 'm' then some rest else drop_to_m rest

/-- Worker for `remove_ansi` with fuel (the initial list length bounds
the number of steps, each of which consumes at least one character). -/
def remove_ansi_go (fuel : Nat) (l : List Char) : List Char :=
  match fuel, l with
  | 0, l => l
  | _ + 1, [] => []
  | fuel + 1, c :: rest =>
    if c = '\x1b' then
      match drop_to_m rest with
      | some r => remove_ansi_go fuel r
      | none => c :: remove_ansi_go fuel rest
    else c :: remove_ansi_go fuel rest

/-- Embeds `remove_re2.ReplaceAllLiteralString(message, "")` for the
regexp `\x1b[^m]*m`: each escape character together with everything up
to and including the next `m` is removed; an escape with no following
`m` is kept. -/
def remove_ansi (l : List Char) : List Char :=
  remove_ansi_go l.length l

/-- Embeds the `copy` method: fold the maps left to right into a fresh
map, keeping `Priority`, `string` and `[]byte` values only when
nonempty; a `[]byte` value is stored as-is (`dest[k] = v`), i.e. the
same slice reference, and every other kind is dropped. -/
def copy_step (st : Store) (dest : FieldMap) (kv : String × Value) : FieldMap :=
  match kv.2 with
  | Value.pr p => if 0 < p.length then mapInsert dest kv.1 (Value.pr p) else dest
  | Value.str s => if 0 < s.length then mapInsert dest kv.1 (Value.str s) else dest
  | Value.bytes r => if 0 < (deref st r).length then mapInsert dest kv.1 (Value.bytes r) else dest
  | Value.other => dest

/-- `Journal.copy(maps...)`: a nil map contributes nothing, which an
empty association list also does, so nil and empty coincide here. -/
def copy (st : Store) (maps : List FieldMap) : FieldMap :=
  maps.foldl (fun dest m => m.foldl (copy_step st) dest) []

/-- The global `message_priority` map `{MESSAGE: "", PRIORITY: ""}`. -/
def message_priority : FieldMap :=
  [("MESSAGE", Value.str ""), ("PRIORITY", Value.str "")]

/-- The global `id128` map: nil, or `{MESSAGE_ID: uuid}`. -/
def id128_map : Option String → FieldMap
  | none => []
  | some u => [("MESSAGE_ID", Value.str u)]

/-- Embeds `Set_default_fields`. -/
def Set_default_fields (st : Store) (id128 : Option String) (j : Journal)
    (fields : FieldMap) : Journal :=
  { j with default_fields := copy st [fields, message_priority, id128_map id128] }

/-- Embeds `New_journal_m`; the global `default_remove_ansi_escape` is
passed explicitly. -/
def New_journal_m (st : Store) (id128 : Option String)
    (default_remove_ansi : Bool) (fields : FieldMap) : Journal :=
  Set_default_fields st id128
    { default_fields := [], add_go_code_fields := true,
      remove_ansi_escape := default_remove_ansi } fields

/-- Embeds `New_journal`. -/
def New_journal (st : Store) (id128 : Option String)
    (default_remove_ansi : Bool) : Journal :=
  New_journal_m st id128 default_remove_ansi []

/-- Embeds `Set_add_go_code_fields`. -/
def Set_add_go_code_fields (j : Journal) (use : Bool) : Journal :=
  { j with add_go_code_fields := use }

/-- Embeds `load_defaults`: writes `MESSAGE`, `PRIORITY` and
`MESSAGE_ID` into the instance's `default_fields` map and returns that
same map (the Go code returns `j.default_fields` itself, so the result
aliases the registry).  The pair returned here is (journal with its
mutated registry, the returned map); both components hold the identical
map. -/
def load_defaults (id128 : Option String) (j : Journal) (message : String)
    (p : String) : Journal × FieldMap :=
  let msg : String :=
    if j.remove_ansi_escape then String.mk (remove_ansi message.data) else message
  let m1 := mapInsert j.default_fields "MESSAGE" (Value.str msg)
  let m2 := mapInsert m1 "PRIORITY" (Value.pr p)
  let m3 :=
    match id128 with
    | none => mapDelete m2 "MESSAGE_ID"
    | some u => mapInsert m2 "MESSAGE_ID" (Value.str u)
  ({ j with default_fields := m3 }, m3)

/-- Embeds `Send`: reject when the incoming field count exceeds
`max_fields`; otherwise, when `add_go_code_fields` is set, insert the
caller-location fields `GO_FUNC`, `GO_FILE`, `GO_LINE` into the map
(mutating it), then run the record-building loop.  The returned pair is
(the map as mutated by `Send`, the outcome): `Except.ok recs` means
`recs` is the record set handed to `sd_journal_sendv`, while
`Except.error` means `Send` returned before the transport was invoked.
The stderr echo is an external side effect with no bearing on the
result and is not modelled; the transport's own status is the
collaborator's. -/
def Send (st : Store) (mx : Nat) (go : GoFields) (j : Journal)
    (fields : FieldMap) : FieldMap × Except String (List Record) :=
  if mx < fields.length then
    (fields, Except.error (capacity_error mx fields.length))
  else
    let fields2 :=
      if j.add_go_code_fields then
        mapInsert (mapInsert (mapInsert fields "GO_FUNC" (Value.str go.func))
          "GO_FILE" (Value.str go.file)) "GO_LINE" (Value.str go.line)
      else fields
    (fields2, encode_fields st fields2)

/-- Embeds `Info`: `j.Send(j.load_defaults(fmt.Sprintln(a...), Log_info))`.
`load_defaults` returns the registry map itself, so the mutations `Send`
performs on its argument are mutations of the registry; the state
passing records this by installing the map `Send` returns as the new
`default_fields`. -/
def Info (st : Store) (mx : Nat) (go : GoFields) (id128 : Option String)
    (j : Journal) (a : String) : Journal × Except String (List Record) :=
  let jm := load_defaults id128 j (sprintln a) Log_info
  let res := Send st mx go jm.1 jm.2
  ({ jm.1 with default_fields := res.1 }, res.2)

/-- The claim C3 "decode": split a record's bytes at the first `0x3D`
byte into the name part and the value part. -/
def split_at_first_61 : List Nat → List Nat × List Nat
  | [] => ([], [])
  | x :: xs =>
    if x = 61 then ([], xs)
    else
      let p := split_at_first_61 xs
      (x :: p.1, p.2)

/-- The byte buffer an emission's merged map associates with a field
name, read through the store: what a consumer of the merged set observes
for a byte-sequence field. -/
def observed_bytes (st : Store) (m : FieldMap) (k : String) : List Nat :=
  match mapLookup k m with
  | some (Value.bytes r) => deref st r
  | _ => []

/-- A fixed caller location used as the concrete resolver result in
counterexamples and witnesses. -/
def go0 : GoFields := ⟨"main.f", "main.go", "7"⟩

end Sd

namespace Ansi

theorem splitOnChar_ne_nil (c : Char) (l : List Char) : splitOnChar c l ≠ [] := by
  induction l with
  | nil => simp [splitOnChar]
  | cons x xs ih =>
    by_cases h : x = c
    · simp [splitOnChar, h]
    · simp only [splitOnChar, if_neg h]
      cases hs : splitOnChar c xs with
      | nil => simp
      | cons y ys => simp

theorem splitOnChar_of_not_mem {c : Char} {l : List Char} (h : c ∉ l) :
    splitOnChar c l = [l] := by
  induction l with
  | nil => rfl
  | cons x xs ih =>
    rw [List.mem_cons] at h
    push_neg at h
    obtain ⟨h1, h2⟩ := h
    have hx : ¬ x = c := fun he => h1 he.symm
    simp only [splitOnChar, if_neg hx, ih h2]

theorem splitOnChar_append {c : Char} {a : List Char} (r : List Char) (h : c ∉ a) :
    splitOnChar c (a ++ c :: r) = a :: splitOnChar c r := by
  induction a with
  | nil => simp [splitOnChar]
  | cons x xs ih =>
    rw [List.mem_cons] at h
    push_neg at h
    obtain ⟨h1, h2⟩ := h
    have hx : ¬ x = c := fun he => h1 he.symm
    simp only [List.cons_append, splitOnChar, if_neg hx, List.append_eq, ih h2]

theorem fgMods_perm {a b : List Char} (h : a.Perm b) : fgMods a = fgMods b := by
  simp only [fgMods, h.mem_iff]

theorem fgBase_perm {a b : List Char} (h : a.Perm b) : fgBase a = fgBase b := by
  simp only [fgBase, h.mem_iff]

theorem colorCode_eq_of_ne (style : List Char) (h1 : style ≠ [])
    (h2 : style ≠ "reset".data) (h3 : style ≠ "off".data) :
    colorCode false style =
      (let fb := splitOnChar ':' style
       let foreground := splitOnChar '+' (fb.headD [])
       let fgKey := foreground.headD []
       let fgStyle := if 1 < foreground.length then foreground.getD 1 [] else []
       let bgParts := if 1 < fb.length then splitOnChar '+' (fb.getD 1 []) else [[]]
       let bg := bgParts.headD []
       let bgStyle := if 1 < bgParts.length then bgParts.getD 1 [] else []
       (start ++ fgMods fgStyle ++ fgColor fgKey (fgBase fgStyle)
         ++ (if bg ≠ [] then bgColor bg (bgBase bgStyle) else [])).dropLast ++ ['m']) := by
  simp only [colorCode, h1, h2, h3, Bool.false_eq_true, false_or, if_false, ite_false]

end Ansi
namespace Ansi

theorem colorCode_shape (fgKey rest : List Char)
    (hpf : '+' ∉ fgKey) (hcf : ':' ∉ fgKey)
    (hrest : rest = [] ∨ ∃ r, rest = ':' :: r) :
    ∃ tail, ∀ attrs, '+' ∉ attrs → ':' ∉ attrs →
      colorCode false (fgKey ++ '+' :: (attrs ++ rest)) =
        (start ++ fgMods attrs ++ fgColor fgKey (fgBase attrs) ++ tail).dropLast ++ ['m'] := by
  rcases hrest with rfl | ⟨r, rfl⟩
  · refine ⟨[], ?_⟩
    intro attrs hpa hca
    have hplus : '+' ∈ fgKey ++ '+' :: (attrs ++ []) := by
      simp [List.mem_append]
    have h1 : fgKey ++ '+' :: (attrs ++ []) ≠ [] := List.ne_nil_of_mem hplus
    have h2 : fgKey ++ '+' :: (attrs ++ []) ≠ "reset".data := by
      intro he
      rw [he] at hplus
      revert hplus
      decide
    have h3 : fgKey ++ '+' :: (attrs ++ []) ≠ "off".data := by
      intro he
      rw [he] at hplus
      revert hplus
      decide
    have hnc : ':' ∉ fgKey ++ '+' :: (attrs ++ []) := by
      simp only [List.append_nil, List.mem_append, List.mem_cons, not_or]
      exact ⟨hcf, by decide, hca⟩
    have hsplit1 : splitOnChar ':' (fgKey ++ '+' :: (attrs ++ [])) =
        [fgKey ++ '+' :: (attrs ++ [])] := splitOnChar_of_not_mem hnc
    have hsplit2 : splitOnChar '+' (fgKey ++ '+' :: (attrs ++ [])) = [fgKey, attrs] := by
      rw [show attrs ++ ([] : List Char) = attrs from List.append_nil attrs,
        splitOnChar_append attrs hpf, splitOnChar_of_not_mem hpa]
    rw [colorCode_eq_of_ne _ h1 h2 h3]
    simp only [hsplit1, List.headD_cons, hsplit2, List.length_cons, List.length_nil,
      List.length_singleton]
    norm_num [List.getD]
  · obtain ⟨s0, stail, hS⟩ : ∃ s0 stail, splitOnChar ':' r = s0 :: stail := by
      cases h : splitOnChar ':' r with
      | nil => exact absurd h (splitOnChar_ne_nil ':' r)
      | cons a b => exact ⟨a, b, rfl⟩
    refine ⟨(let bgParts := splitOnChar '+' s0
             let bg := bgParts.headD []
             let bgStyle := if 1 < bgParts.length then bgParts.getD 1 [] else []
             if bg ≠ [] then bgColor bg (bgBase bgStyle) else []), ?_⟩
    intro attrs hpa hca
    have hplus : '+' ∈ fgKey ++ '+' :: (attrs ++ ':' :: r) := by
      simp [List.mem_append]
    have h1 : fgKey ++ '+' :: (attrs ++ ':' :: r) ≠ [] := List.ne_nil_of_mem hplus
    have h2 : fgKey ++ '+' :: (attrs ++ ':' :: r) ≠ "reset".data := by
      intro he
      rw [he] at hplus
      revert hplus
      decide
    have h3 : fgKey ++ '+' :: (attrs ++ ':' :: r) ≠ "off".data := by
      intro he
      rw [he] at hplus
      revert hplus
      decide
    have hnc : ':' ∉ fgKey ++ '+' :: attrs := by
      simp only [List.mem_append, List.mem_cons, not_or]
      exact ⟨hcf, by decide, hca⟩
    have hassoc : fgKey ++ '+' :: (attrs ++ ':' :: r) =
        (fgKey ++ '+' :: attrs) ++ ':' :: r := by
      simp [List.append_assoc]
    have hsplit1 : splitOnChar ':' (fgKey ++ '+' :: (attrs ++ ':' :: r)) =
        (fgKey ++ '+' :: attrs) :: s0 :: stail := by
      rw [hassoc, splitOnChar_append r hnc, hS]
    have hsplit2 : splitOnChar '+' (fgKey ++ '+' :: attrs) = [fgKey, attrs] := by
      rw [splitOnChar_append attrs hpf, splitOnChar_of_not_mem hpa]
    rw [colorCode_eq_of_ne _ h1 h2 h3]
    simp only [hsplit1, List.headD_cons, hsplit2, List.length_cons, List.length_nil,
      List.length_singleton]
    norm_num [List.getD]

end Ansi
/-- C7: with plain mode enabled, `compile` returns the empty byte
sequence for every style descriptor (hence also for "red+bh" and
"reset"), and `colorize` returns its text argument unchanged; and
`compile("off")` returns the empty sequence regardless of plain mode. -/
theorem plain_mode_suppression :
    ∀ (style s : List Char) (p : Bool),
      Ansi.colorCode true style = [] ∧
      Ansi.Color true s style = s ∧
      Ansi.colorCode p "off".data = [] := by
  intro style s p
  refine ⟨by simp [Ansi.colorCode], by simp [Ansi.Color], ?_⟩
  cases p with
  | false => decide
  | true => decide

/-- C8: `compile("red+b:white+h")` emits the bold code, then foreground
red at normal intensity (31), then background white at high intensity
(107), in that order: its output is the escape prefix, the code
substring "1;31;107", and the terminator. -/
theorem compile_red_bold_on_white_high :
    Ansi.colorCode false "red+b:white+h".data =
      "\x1b[".data ++ "1;31;107".data ++ "m".data := by decide

/-- C9: `compile` is deterministic, and is order-insensitive in the
attribute flags of the foreground segment: permuting the attribute
characters leaves the output byte-identical, the modifier codes being
emitted in the fixed order bold, blink, underline, inverse,
strikethrough. -/
theorem compile_attr_order_insensitive :
    ∀ (p : Bool) (fgKey a1 a2 rest : List Char),
      List.Perm a1 a2 →
      '+' ∉ fgKey → ':' ∉ fgKey →
      '+' ∉ a1 → ':' ∉ a1 → '+' ∉ a2 → ':' ∉ a2 →
      (rest = [] ∨ ∃ r, rest = ':' :: r) →
      (∀ s : List Char, Ansi.colorCode p s = Ansi.colorCode p s) ∧
      Ansi.colorCode p (fgKey ++ '+' :: (a1 ++ rest)) =
        Ansi.colorCode p (fgKey ++ '+' :: (a2 ++ rest)) := by
  intro p fgKey a1 a2 rest hperm hpf hcf hp1 hc1 hp2 hc2 hrest
  refine ⟨fun s => rfl, ?_⟩
  cases p with
  | true => simp [Ansi.colorCode]
  | false =>
    obtain ⟨tail, htail⟩ := Ansi.colorCode_shape fgKey rest hpf hcf hrest
    rw [htail a1 hp1 hc1, htail a2 hp2 hc2, Ansi.fgMods_perm hperm,
      Ansi.fgBase_perm hperm]

/-- Witness for C9: "bh" and "hb" are permutations of each other and
compiling "red+bh" and "red+hb" yields identical output. -/
theorem compile_attr_order_insensitive_witness :
    List.Perm "bh".data "hb".data ∧
    Ansi.colorCode false ("red".data ++ '+' :: ("bh".data ++ [])) =
      Ansi.colorCode false ("red".data ++ '+' :: ("hb".data ++ [])) :=
  ⟨by decide,
    (compile_attr_order_insensitive false "red".data "bh".data "hb".data []
      (by decide) (by decide) (by decide) (by decide) (by decide) (by decide)
      (by decide) (Or.inl rfl)).2⟩

/-- C10: with plain mode off and a non-empty style, the closure built by
`ColorFunc` maps the empty string to the empty string, while
`Color("", style)` returns the compiled escape prefix followed by the
reset sequence, which is non-empty. -/
theorem colorfunc_color_empty_input_disagree :
    ∀ style : List Char, style ≠ [] →
      Ansi.ColorFunc false style false [] = [] ∧
      Ansi.Color false [] style = Ansi.colorCode false style ++ Ansi.Reset ∧
      Ansi.Color false [] style ≠ [] := by
  intro style h
  have hlen : ¬ style.length < 1 := by
    have := List.length_pos.mpr h
    omega
  refine ⟨by simp [Ansi.ColorFunc, h], ?_, ?_⟩
  · simp [Ansi.Color, hlen]
  · simp [Ansi.Color, hlen, Ansi.Reset]

/-- Witness for C10 at the style "red". -/
theorem colorfunc_color_empty_input_disagree_witness :
    Ansi.ColorFunc false "red".data false [] = [] ∧
    Ansi.Color false [] "red".data = Ansi.colorCode false "red".data ++ Ansi.Reset ∧
    Ansi.Color false [] "red".data ≠ [] :=
  colorfunc_color_empty_input_disagree "red".data (by decide)
namespace Sd

theorem mapLookup_mapInsert (m : FieldMap) (k k' : String) (v : Value) :
    mapLookup k (mapInsert m k' v) =
      if k' = k then some v else mapLookup k m := by
  induction m with
  | nil => simp [mapInsert, mapLookup]
  | cons kv rest ih =>
    obtain ⟨a, b⟩ := kv
    by_cases ha : a = k'
    · subst ha
      by_cases hk : a = k
      · subst hk
        simp [mapInsert, mapLookup]
      · simp [mapInsert, mapLookup, hk]
    · by_cases hk : a = k
      · subst hk
        have : ¬ k' = a := fun he => ha he.symm
        simp [mapInsert, mapLookup, ha, this]
      · simp [mapInsert, mapLookup, ha, hk, ih]

theorem mapLookup_mapDelete_ne (m : FieldMap) (k k' : String) (h : k' ≠ k) :
    mapLookup k (mapDelete m k') = mapLookup k m := by
  induction m with
  | nil => simp [mapDelete, mapLookup]
  | cons kv rest ih =>
    obtain ⟨a, b⟩ := kv
    by_cases ha : a = k'
    · subst ha
      have : ¬ a = k := h
      simp [mapDelete, mapLookup, this]
    · simp [mapDelete, mapLookup, ha, ih]

theorem encode_fields_ok (st : Store) (m : FieldMap)
    (h : ∀ p ∈ m, valid_field_match p.1 = true ∧ p.2 ≠ Value.other) :
    ∃ recs, encode_fields st m = Except.ok recs ∧ recs.length = m.length := by
  induction m with
  | nil => exact ⟨[], rfl, rfl⟩
  | cons kv rest ih =>
    obtain ⟨recs, hok, hlen⟩ := ih (fun p hp => h p (List.mem_cons_of_mem _ hp))
    obtain ⟨hv, hs⟩ := h kv (List.mem_cons_self _ _)
    obtain ⟨k, v⟩ := kv
    cases v with
    | str s =>
      exact ⟨Record.strRec (k ++ "=" ++ s) :: recs,
        by simp [encode_fields, hv, hok, Except.map], by simp [hlen]⟩
    | pr p =>
      exact ⟨Record.strRec (k ++ "=" ++ p) :: recs,
        by simp [encode_fields, hv, hok, Except.map], by simp [hlen]⟩
    | bytes r =>
      exact ⟨Record.byteRec (strBytes k ++ 61 :: deref st r) :: recs,
        by simp [encode_fields, hv, hok, Except.map], by simp [hlen]⟩
    | other => exact absurd rfl hs

theorem encode_fields_invalid (st : Store) (m : FieldMap)
    (hsupp : ∀ p ∈ m, p.2 ≠ Value.other)
    (hex : ∃ p ∈ m, valid_field_match p.1 = false) :
    ∃ p ∈ m, valid_field_match p.1 = false ∧
      encode_fields st m = Except.error (invalid_field_error p.1) := by
  induction m with
  | nil =>
    obtain ⟨p, hp, _⟩ := hex
    exact absurd hp (List.not_mem_nil p)
  | cons kv rest ih =>
    obtain ⟨k, v⟩ := kv
    by_cases hk : valid_field_match k = true
    · have hex' : ∃ p ∈ rest, valid_field_match p.1 = false := by
        obtain ⟨p, hp, hpf⟩ := hex
        rcases List.mem_cons.mp hp with rfl | hmem
        · exact absurd hpf (by simp [hk])
        · exact ⟨p, hmem, hpf⟩
      obtain ⟨p, hp, hpf, herr⟩ :=
        ih (fun q hq => hsupp q (List.mem_cons_of_mem _ hq)) hex'
      refine ⟨p, List.mem_cons_of_mem _ hp, hpf, ?_⟩
      have hv := hsupp (k, v) (List.mem_cons_self _ _)
      cases v with
      | other => exact absurd rfl hv
      | str s => simp [encode_fields, hk, herr, Except.map]
      | pr pp => simp [encode_fields, hk, herr, Except.map]
      | bytes r => simp [encode_fields, hk, herr, Except.map]
    · refine ⟨(k, v), List.mem_cons_self _ _, by simpa using hk, ?_⟩
      simp [encode_fields, hk]

theorem split_at_first_61_append (a t : List Nat) (h : (61 : Nat) ∉ a) :
    split_at_first_61 (a ++ 61 :: t) = (a, t) := by
  induction a with
  | nil => simp [split_at_first_61]
  | cons x xs ih =>
    rw [List.mem_cons] at h
    push_neg at h
    obtain ⟨h1, h2⟩ := h
    have hx : ¬ x = 61 := fun he => h1 he.symm
    simp [split_at_first_61, hx, ih h2]

theorem mapLookup_send_map (st : Store) (mx : Nat) (go : GoFields)
    (j : Journal) (fields : FieldMap) (k : String)
    (hk1 : k ≠ "GO_FUNC") (hk2 : k ≠ "GO_FILE") (hk3 : k ≠ "GO_LINE") :
    mapLookup k (Send st mx go j fields).1 = mapLookup k fields := by
  by_cases hcap : mx < fields.length
  · simp [Send, hcap]
  · by_cases hgo : j.add_go_code_fields
    · simp [Send, hcap, hgo, mapLookup_mapInsert,
        Ne.symm hk1, Ne.symm hk2, Ne.symm hk3]
    · simp [Send, hcap, hgo]

theorem spec_grammar_implies_regexp (k : String)
    (h : spec_ascii_field_grammar k = true) : valid_field_match k = true := by
  unfold spec_ascii_field_grammar at h
  unfold valid_field_match
  match hk : k.data with
  | [] => rw [hk] at h; cases h
  | c :: rest =>
    rw [hk] at h
    simp only [Bool.and_eq_true, List.all_eq_true] at h ⊢
    refine ⟨h.1, fun x hx => ?_⟩
    have hcl := h.2 x hx
    simp only [Bool.or_eq_true] at hcl ⊢
    rcases hcl with (hu | hd) | hus
    · exact Or.inl (Or.inl (by simp [isLu, hu]))
    · exact Or.inl (Or.inr hd)
    · exact Or.inr hus

end Sd
namespace Sd

theorem copy_step_bytes (st : Store) (dest : FieldMap) (kv : String × Value)
    (k : String) (r : Nat)
    (h : mapLookup k (copy_step st dest kv) = some (Value.bytes r)) :
    kv = (k, Value.bytes r) ∨ mapLookup k dest = some (Value.bytes r) := by
  obtain ⟨k', v⟩ := kv
  cases v with
  | str s =>
    right
    by_cases hp : 0 < s.length
    · rw [copy_step] at h
      simp only [hp, if_true] at h
      rw [mapLookup_mapInsert] at h
      by_cases hk : k' = k
      · simp [hk] at h
      · simpa [hk] using h
    · simpa [copy_step, hp] using h
  | pr p =>
    right
    by_cases hp : 0 < p.length
    · rw [copy_step] at h
      simp only [hp, if_true] at h
      rw [mapLookup_mapInsert] at h
      by_cases hk : k' = k
      · simp [hk] at h
      · simpa [hk] using h
    · simpa [copy_step, hp] using h
  | bytes r' =>
    by_cases hp : 0 < (deref st r').length
    · rw [copy_step] at h
      simp only [hp, if_true] at h
      rw [mapLookup_mapInsert] at h
      by_cases hk : k' = k
      · left
        simp only [hk, if_true] at h
        obtain rfl : r' = r := by simpa using h
        rw [hk]
      · right
        simpa [hk] using h
    · right
      simpa [copy_step, hp] using h
  | other =>
    right
    simpa [copy_step] using h

theorem copy_fold_bytes (st : Store) (m : FieldMap) :
    ∀ (dest : FieldMap) (k : String) (r : Nat),
      mapLookup k (m.foldl (copy_step st) dest) = some (Value.bytes r) →
      (k, Value.bytes r) ∈ m ∨ mapLookup k dest = some (Value.bytes r) := by
  induction m with
  | nil => exact fun dest k r h => Or.inr h
  | cons kv rest ih =>
    intro dest k r h
    rw [List.foldl_cons] at h
    rcases ih _ k r h with hmem | hdest
    · exact Or.inl (List.mem_cons_of_mem _ hmem)
    · rcases copy_step_bytes st dest kv k r hdest with heq | h2
      · exact Or.inl (heq ▸ List.mem_cons_self _ _)
      · exact Or.inr h2

theorem copy_maps_bytes (st : Store) (maps : List FieldMap) :
    ∀ (init : FieldMap) (k : String) (r : Nat),
      mapLookup k
          (maps.foldl (fun dest mm => mm.foldl (copy_step st) dest) init) =
        some (Value.bytes r) →
      (∃ mm ∈ maps, (k, Value.bytes r) ∈ mm) ∨
        mapLookup k init = some (Value.bytes r) := by
  induction maps with
  | nil => exact fun init k r h => Or.inr h
  | cons mm rest ih =>
    intro init k r h
    rw [List.foldl_cons] at h
    rcases ih _ k r h with ⟨m2, hm2, hmem⟩ | hinit
    · exact Or.inl ⟨m2, List.mem_cons_of_mem _ hm2, hmem⟩
    · rcases copy_fold_bytes st mm init k r hinit with hmem | hinit2
      · exact Or.inl ⟨mm, List.mem_cons_self _ _, hmem⟩
      · exact Or.inr hinit2

end Sd
/-- C1 counterexample: the name "AÉ" violates the claim's ASCII grammar
`^[^_][A-Z0-9_]*` (É is outside `[A-Z0-9_]`), yet the code's regexp
class `\p{Lu}` contains É (U+00C9), so `Send` accepts the name, builds
a record for the field and returns no validation error — refuting the
claim's assertion that every grammar-violating name yields a validation
error with zero records handed to the transport. -/
theorem nonascii_uppercase_name_counterexample :
    Sd.spec_ascii_field_grammar "AÉ" = false ∧
    Sd.valid_field_match "AÉ" = true ∧
    Sd.Send [] 10 Sd.go0
        (Sd.Set_add_go_code_fields (Sd.New_journal [] none false) false)
        [("AÉ", Sd.Value.str "x")] =
      ([("AÉ", Sd.Value.str "x")], Except.ok [Sd.Record.strRec "AÉ=x"]) := by
  refine ⟨by decide, by decide, by decide⟩

/-- C1 amended: names are validated against the code's regexp
`^[^_]{1}[\p{Lu}0-9_]*$`, whose letter class is Unicode uppercase (Lu),
a strict superset of the claim's ASCII `[A-Z]`.  When the incoming
field count is within bounds (and the caller-location injection is off,
so the map reaching the encoding loop is exactly the given one): a
field map whose names all match the ASCII grammar — hence the regexp —
and whose values are all supported kinds yields one record per field;
and a map containing any name the regexp rejects makes `Send` return
the validation error naming such a field, with `Except.error` meaning
`Send` returned before anything was handed to the transport.  A name
violating only the ASCII restriction (non-ASCII uppercase, e.g. "AÉ")
is accepted and encoded, per the counterexample. -/
theorem send_field_name_validation :
    ∀ (st : Sd.Store) (mx : Nat) (go : Sd.GoFields) (j : Sd.Journal)
      (m : Sd.FieldMap),
      j.add_go_code_fields = false →
      ¬ mx < m.length →
      ((∀ p ∈ m, Sd.spec_ascii_field_grammar p.1 = true ∧ p.2 ≠ Sd.Value.other) →
        ∃ recs, Sd.Send st mx go j m = (m, Except.ok recs) ∧
          recs.length = m.length) ∧
      ((∀ p ∈ m, p.2 ≠ Sd.Value.other) →
        (∃ p ∈ m, Sd.valid_field_match p.1 = false) →
        ∃ p ∈ m, Sd.valid_field_match p.1 = false ∧
          Sd.Send st mx go j m =
            (m, Except.error (Sd.invalid_field_error p.1))) := by
  intro st mx go j m hgo hcap
  have hsend : Sd.Send st mx go j m = (m, Sd.encode_fields st m) := by
    simp [Sd.Send, hcap, hgo]
  constructor
  · intro h
    obtain ⟨recs, hok, hlen⟩ := Sd.encode_fields_ok st m
      (fun p hp => ⟨Sd.spec_grammar_implies_regexp p.1 (h p hp).1, (h p hp).2⟩)
    exact ⟨recs, by rw [hsend, hok], hlen⟩
  · intro hsupp hex
    obtain ⟨p, hp, hpf, herr⟩ := Sd.encode_fields_invalid st m hsupp hex
    exact ⟨p, hp, hpf, by rw [hsend, herr]⟩

/-- Witness for C1 amended: the ASCII-grammar map {MESSAGE: "hi"}
encodes to one record, and the map {MESSAGE: "hi", _BAD: "x"} is
rejected with the validation error naming `_BAD`. -/
theorem send_field_name_validation_witness :
    (∃ recs,
      Sd.Send [] 10 Sd.go0
          (Sd.Set_add_go_code_fields (Sd.New_journal [] none false) false)
          [("MESSAGE", Sd.Value.str "hi")] =
        ([("MESSAGE", Sd.Value.str "hi")], Except.ok recs) ∧ recs.length = 1) ∧
    (∃ p ∈ [("MESSAGE", Sd.Value.str "hi"), ("_BAD", Sd.Value.str "x")],
      Sd.valid_field_match p.1 = false ∧
      Sd.Send [] 10 Sd.go0
          (Sd.Set_add_go_code_fields (Sd.New_journal [] none false) false)
          [("MESSAGE", Sd.Value.str "hi"), ("_BAD", Sd.Value.str "x")] =
        ([("MESSAGE", Sd.Value.str "hi"), ("_BAD", Sd.Value.str "x")],
          Except.error (Sd.invalid_field_error p.1))) :=
  ⟨(send_field_name_validation [] 10 Sd.go0
      (Sd.Set_add_go_code_fields (Sd.New_journal [] none false) false)
      [("MESSAGE", Sd.Value.str "hi")] rfl (by decide)).1 (by decide),
   (send_field_name_validation [] 10 Sd.go0
      (Sd.Set_add_go_code_fields (Sd.New_journal [] none false) false)
      [("MESSAGE", Sd.Value.str "hi"), ("_BAD", Sd.Value.str "x")] rfl
      (by decide)).2 (by decide) (by decide)⟩

/-- C2 counterexample: with the platform maximum modelled as 2 and
caller-location tagging enabled (the default), `Send` of a 2-field map
succeeds and hands 5 records to the transport, exceeding the maximum —
the capacity check runs before the GO_* fields are injected. -/
theorem send_exceeds_max_counterexample :
    Except.map List.length
        (Sd.Send [] 2 Sd.go0 (Sd.New_journal [] none false)
          [("MESSAGE", Sd.Value.str "x"), ("PRIORITY", Sd.Value.pr "6")]).2 =
      Except.ok 5 ∧ 2 < 5 := by
  exact ⟨by decide, by decide⟩

/-- C2 amended: the capacity limit is enforced on the field map as
passed to `Send`, before any caller-location injection: with tagging
disabled, a map of at most the maximum encodes successfully (exactly the
maximum included) and the transported record count never exceeds the
maximum, while a map exceeding the maximum fails with the capacity error
reporting the maximum and the actual count, with nothing sent. -/
theorem send_capacity_boundary :
    ∀ (st : Sd.Store) (mx : Nat) (go : Sd.GoFields) (j : Sd.Journal)
      (m : Sd.FieldMap),
      j.add_go_code_fields = false →
      (∀ p ∈ m, Sd.valid_field_match p.1 = true ∧ p.2 ≠ Sd.Value.other) →
      (m.length ≤ mx →
        ∃ recs, Sd.Send st mx go j m = (m, Except.ok recs) ∧
          recs.length = m.length ∧ recs.length ≤ mx) ∧
      (mx < m.length →
        Sd.Send st mx go j m =
          (m, Except.error (Sd.capacity_error mx m.length))) := by
  intro st mx go j m hgo hval
  constructor
  · intro hle
    have hcap : ¬ mx < m.length := not_lt.mpr hle
    obtain ⟨recs, hok, hlen⟩ := Sd.encode_fields_ok st m hval
    exact ⟨recs, by simp [Sd.Send, hcap, hgo, hok], hlen, hlen ▸ hle⟩
  · intro hlt
    simp [Sd.Send, hlt]

/-- Witness for C2 amended: with maximum 2 and tagging disabled, a
2-field map encodes to exactly 2 records, and a 3-field map fails with
the capacity error reporting 2 and 3. -/
theorem send_capacity_boundary_witness :
    (∃ recs,
      Sd.Send [] 2 Sd.go0
          (Sd.Set_add_go_code_fields (Sd.New_journal [] none false) false)
          [("MESSAGE", Sd.Value.str "x"), ("PRIORITY", Sd.Value.pr "6")] =
        ([("MESSAGE", Sd.Value.str "x"), ("PRIORITY", Sd.Value.pr "6")],
          Except.ok recs) ∧ recs.length = 2 ∧ recs.length ≤ 2) ∧
    Sd.Send [] 2 Sd.go0
        (Sd.Set_add_go_code_fields (Sd.New_journal [] none false) false)
        [("MESSAGE", Sd.Value.str "x"), ("PRIORITY", Sd.Value.pr "6"),
          ("A", Sd.Value.str "y")] =
      ([("MESSAGE", Sd.Value.str "x"), ("PRIORITY", Sd.Value.pr "6"),
          ("A", Sd.Value.str "y")],
        Except.error (Sd.capacity_error 2 3)) :=
  ⟨(send_capacity_boundary [] 2 Sd.go0
      (Sd.Set_add_go_code_fields (Sd.New_journal [] none false) false)
      [("MESSAGE", Sd.Value.str "x"), ("PRIORITY", Sd.Value.pr "6")] rfl
      (by decide)).1 (by decide),
   (send_capacity_boundary [] 2 Sd.go0
      (Sd.Set_add_go_code_fields (Sd.New_journal [] none false) false)
      [("MESSAGE", Sd.Value.str "x"), ("PRIORITY", Sd.Value.pr "6"),
        ("A", Sd.Value.str "y")] rfl (by decide)).2 (by decide)⟩

/-- C3: a byte-sequence field encodes to the single record
`NAME ++ 0x3D ++ value` covering all the value bytes (embedded zero
bytes included), and splitting that record at the first 0x3D byte
recovers exactly the original name bytes and the original value. -/
theorem byte_record_roundtrip :
    ∀ (name : String) (t : List Nat) (st : Sd.Store) (r : Nat),
      Sd.deref st r = t →
      Sd.valid_field_match name = true →
      (61 : Nat) ∉ Sd.strBytes name →
      Sd.encode_fields st [(name, Sd.Value.bytes r)] =
        Except.ok [Sd.Record.byteRec (Sd.strBytes name ++ 61 :: t)] ∧
      Sd.split_at_first_61 (Sd.strBytes name ++ 61 :: t) =
        (Sd.strBytes name, t) := by
  intro name t st r hd hv h61
  constructor
  · simp [Sd.encode_fields, hv, hd, Except.map]
  · exact Sd.split_at_first_61_append (Sd.strBytes name) t h61

/-- Witness for C3 at name USER_BYTES and a value with an embedded zero
byte. -/
theorem byte_record_roundtrip_witness :
    Sd.encode_fields [[74, 0, 101]] [("USER_BYTES", Sd.Value.bytes 0)] =
      Except.ok [Sd.Record.byteRec (Sd.strBytes "USER_BYTES" ++ 61 :: [74, 0, 101])] ∧
    Sd.split_at_first_61 (Sd.strBytes "USER_BYTES" ++ 61 :: [74, 0, 101]) =
      (Sd.strBytes "USER_BYTES", [74, 0, 101]) :=
  byte_record_roundtrip "USER_BYTES" [74, 0, 101] [[74, 0, 101]] 0 rfl
    (by decide) (by decide)
/-- C4 counterexample: a journal created with no defaults has an empty
registry; after a single `Info` emission the registry contains the
emission's MESSAGE and caller-location fields — `load_defaults` returns
the registry itself and `Send` mutates it, so the registry is not read
by copy and the emission's fields persist. -/
theorem registry_not_copied_counterexample :
    Sd.mapLookup "MESSAGE" (Sd.New_journal [] none false).default_fields = none ∧
    Sd.mapLookup "MESSAGE"
        (Sd.Info [] 1024 Sd.go0 none (Sd.New_journal [] none false) "x").1.default_fields =
      some (Sd.Value.str "x\n") ∧
    Sd.mapLookup "GO_FUNC"
        (Sd.Info [] 1024 Sd.go0 none (Sd.New_journal [] none false) "x").1.default_fields =
      some (Sd.Value.str "main.f") ∧
    (Sd.Info [] 1024 Sd.go0 none (Sd.New_journal [] none false) "x").1.default_fields ≠
      (Sd.New_journal [] none false).default_fields := by
  refine ⟨by decide, by decide, by decide, by decide⟩

/-- C4 amended: the default-field registry is read by reference, not by
copy: `load_defaults` writes the emission's fields into the registry and
returns the registry itself, so after an `Info` emission the registry
contains the emission's MESSAGE (the message with the Sprintln newline)
and PRIORITY fields (and, when tagging is enabled, the caller-location
fields, as the counterexample shows concretely). -/
theorem info_registry_persistence :
    ∀ (st : Sd.Store) (mx : Nat) (go : Sd.GoFields) (id : Option String)
      (j : Sd.Journal) (msg : String),
      j.remove_ansi_escape = false →
      Sd.mapLookup "MESSAGE" (Sd.Info st mx go id j msg).1.default_fields =
        some (Sd.Value.str (msg ++ "\n")) ∧
      Sd.mapLookup "PRIORITY" (Sd.Info st mx go id j msg).1.default_fields =
        some (Sd.Value.pr Sd.Log_info) := by
  intro st mx go id j msg hra
  have hsend : ∀ k : String, k ≠ "GO_FUNC" → k ≠ "GO_FILE" → k ≠ "GO_LINE" →
      Sd.mapLookup k (Sd.Info st mx go id j msg).1.default_fields =
        Sd.mapLookup k (Sd.load_defaults id j (Sd.sprintln msg) Sd.Log_info).2 := by
    intro k h1 h2 h3
    simp only [Sd.Info]
    exact Sd.mapLookup_send_map st mx go _ _ k h1 h2 h3
  constructor
  · rw [hsend "MESSAGE" (by decide) (by decide) (by decide)]
    simp only [Sd.load_defaults, hra, Bool.false_eq_true, if_false]
    cases id with
    | none =>
      rw [Sd.mapLookup_mapDelete_ne _ _ _ (by decide),
        Sd.mapLookup_mapInsert, Sd.mapLookup_mapInsert]
      simp [Sd.sprintln]
    | some u =>
      rw [Sd.mapLookup_mapInsert, Sd.mapLookup_mapInsert, Sd.mapLookup_mapInsert]
      simp [Sd.sprintln]
  · rw [hsend "PRIORITY" (by decide) (by decide) (by decide)]
    simp only [Sd.load_defaults, hra, Bool.false_eq_true, if_false]
    cases id with
    | none =>
      rw [Sd.mapLookup_mapDelete_ne _ _ _ (by decide), Sd.mapLookup_mapInsert]
      simp
    | some u =>
      rw [Sd.mapLookup_mapInsert, Sd.mapLookup_mapInsert]
      simp

/-- Witness for C4 amended at a concrete journal and message. -/
theorem info_registry_persistence_witness :
    Sd.mapLookup "MESSAGE"
        (Sd.Info [] 1024 Sd.go0 none (Sd.New_journal [] none false) "x").1.default_fields =
      some (Sd.Value.str ("x" ++ "\n")) ∧
    Sd.mapLookup "PRIORITY"
        (Sd.Info [] 1024 Sd.go0 none (Sd.New_journal [] none false) "x").1.default_fields =
      some (Sd.Value.pr Sd.Log_info) :=
  info_registry_persistence [] 1024 Sd.go0 none (Sd.New_journal [] none false) "x" rfl
/-- C5 counterexample: `copy` retains the byte-sequence value of the
caller's map as the same reference (no deep copy), so mutating the
caller's buffer after the merge (store entry 0 changed from [1,2,3] to
[9,9,9]) changes the value observed through the merged set. -/
theorem copy_not_deep_counterexample :
    Sd.mapLookup "X" (Sd.copy [[1, 2, 3]] [[("X", Sd.Value.bytes 0)]]) =
      some (Sd.Value.bytes 0) ∧
    Sd.observed_bytes [[1, 2, 3]] (Sd.copy [[1, 2, 3]] [[("X", Sd.Value.bytes 0)]]) "X" =
      [1, 2, 3] ∧
    Sd.observed_bytes [[9, 9, 9]] (Sd.copy [[1, 2, 3]] [[("X", Sd.Value.bytes 0)]]) "X" =
      [9, 9, 9] ∧
    ([9, 9, 9] : List Nat) ≠ [1, 2, 3] := by
  refine ⟨by decide, by decide, by decide, by decide⟩

/-- C5 amended: `copy` retains byte-sequence values by reference (plain
slice assignment, not a deep copy): every byte-sequence value in the
merged set is literally one of the caller-supplied references, so the
merged set aliases the caller-owned buffers and mutating such a buffer
after the merge is visible through the merged set. -/
theorem copy_bytes_are_aliases :
    ∀ (st : Sd.Store) (maps : List Sd.FieldMap) (k : String) (r : Nat),
      Sd.mapLookup k (Sd.copy st maps) = some (Sd.Value.bytes r) →
      ∃ m ∈ maps, (k, Sd.Value.bytes r) ∈ m := by
  intro st maps k r h
  rcases Sd.copy_maps_bytes st maps [] k r h with hm | hinit
  · exact hm
  · simp [Sd.mapLookup] at hinit

/-- Witness for C5 amended: the reference found in the merged set is the
caller's own. -/
theorem copy_bytes_are_aliases_witness :
    ∃ m ∈ [[("X", Sd.Value.bytes 0)]], ("X", Sd.Value.bytes 0) ∈ m :=
  copy_bytes_are_aliases [[1, 2, 3]] [[("X", Sd.Value.bytes 0)]] "X" 0 (by decide)

/-- C6 counterexample: `Info` formats the message with `fmt.Sprintln`,
which appends a newline, so the merged set's MESSAGE value is
"Info test\n", not "Info test". -/
theorem info_message_newline_counterexample :
    Sd.mapLookup "MESSAGE"
        (Sd.Info [] 1024 Sd.go0 none
          (Sd.Set_add_go_code_fields (Sd.New_journal [] none false) false)
          "Info test").1.default_fields = some (Sd.Value.str "Info test\n") ∧
    some (Sd.Value.str "Info test\n") ≠ some (Sd.Value.str "Info test") := by
  refine ⟨by decide, by decide⟩

/-- C6 amended: for an instance with no default fields and
caller-location tagging disabled, emitting at Info severity with message
"Info test" and no overlay fields yields the merged field set exactly
{MESSAGE: "Info test\n", PRIORITY: "6"} (the newline coming from
Sprintln), and encoding yields one record per field with no validation
error. -/
theorem info_basic_emission :
    (Sd.Info [] 1024 Sd.go0 none
        (Sd.Set_add_go_code_fields (Sd.New_journal [] none false) false)
        "Info test").1.default_fields =
      [("MESSAGE", Sd.Value.str "Info test\n"), ("PRIORITY", Sd.Value.pr "6")] ∧
    (Sd.Info [] 1024 Sd.go0 none
        (Sd.Set_add_go_code_fields (Sd.New_journal [] none false) false)
        "Info test").2 =
      Except.ok [Sd.Record.strRec "MESSAGE=Info test\n",
        Sd.Record.strRec "PRIORITY=6"] := by
  refine ⟨by decide, by decide⟩
